import Mathlib

/-!
Shallow embedding of the core of the `sniping` pipeline, translated from
the TypeScript source:

* `src/modules/Orchestrator.ts` — `JobPoller.fetchAllJobs`,
  `JobPoller.filterNewJobs`, `JobPoller.enqueueNewJobs` (discovery,
  dedup, enqueue) and `JobApplier.processJob` (idempotency lock).
* `src/utils/templates.ts` — `CircuitBreaker`.
* `src/utils/encryption.ts` — `decryptDataKey` (the KMS data-key cache)
  and `loadAndDecrypt` (the session envelope loader).
* `src/utils/retry.ts` — `retry` / `PermanentError` classification.

Item identifiers (job ids, wrapped keys) are opaque strings in the
source; the embedding is parametric over a type with decidable equality
and instantiates it with `Nat` for concrete runs.
-/

/-! ## JobPoller: pagination (`fetchAllJobs`) -/

/-- One page of the catalog response: `searchJobCardsByLocation.jobs`
(represented by their ids) and `searchJobCardsByLocation.nextOffset`. -/
structure Page (α : Type) where
  jobs : List α
  nextOffset : Option Nat
deriving Repr

/-- The `while (hasMore)` loop body of `JobPoller.fetchAllJobs`, with the
catalog modelled as a function from offset to page and an explicit fuel
bound on the number of iterations.  The source breaks on an empty page,
appends the page, and stops when `nextOffset === null` or the page is
shorter than the fixed `limit = 100`; otherwise it continues at
`nextOffset`. -/
def fetchLoop {α : Type} (catalog : Nat → Page α) : Nat → Nat → List α → List α
  | 0, _, allJobs => allJobs
  | fuel + 1, offset, allJobs =>
    let response := catalog offset
    if response.jobs.length = 0 then
      allJobs
    else
      let allJobs := allJobs ++ response.jobs
      match response.nextOffset with
      | none => allJobs
      | some nextOffset =>
        if response.jobs.length < 100 then
          allJobs
        else
          fetchLoop catalog fuel nextOffset allJobs

/-- Function `JobPoller.fetchAllJobs`: start at `offset = 0` with an empty
accumulator. -/
def fetchAllJobs {α : Type} (catalog : Nat → Page α) (fuel : Nat) : List α :=
  fetchLoop catalog fuel 0 []

/-! ## JobPoller: dedup (`filterNewJobs`) and enqueue (`enqueueNewJobs`) -/

/-- Function `JobPoller.filterNewJobs`: one pipeline of `SISMEMBER seenJobsKey id`
commands; a job is kept exactly when its id is not in the seen-set.  All
membership checks read the same seen-set state — the pipeline contains
no insertion. -/
def filterNewJobs {α : Type} [DecidableEq α] (seen : Finset α) (jobs : List α) : List α :=
  jobs.filter (fun job => job ∉ seen)

/-- Function `JobPoller.enqueueNewJobs`: a second, separate pipeline that for each
job issues `SADD seenJobsKey id` and `LPUSH newJobsQueue jobData`.  The
queue records enqueue events in order (head of the Redis list = most
recent; we append on the right, which preserves multiplicities and FIFO
order as consumed by `rpop`). -/
def enqueueNewJobs {α : Type} [DecidableEq α] (seen : Finset α) (queue : List α)
    (jobs : List α) : Finset α × List α :=
  (seen ∪ jobs.toFinset, queue ++ jobs)

/-- One sequential discovery cycle over a fetched candidate list
(`JobPoller.poll` after `fetchAllJobs`): filter against the seen-set,
then enqueue the new jobs. -/
def pollCycle {α : Type} [DecidableEq α] (s : Finset α × List α) (jobs : List α) :
    Finset α × List α :=
  let newJobs := filterNewJobs s.1 jobs
  enqueueNewJobs s.1 s.2 newJobs

/-- A sequence of sequential discovery cycles. -/
def pollSeq {α : Type} [DecidableEq α] (s : Finset α × List α) (cycles : List (List α)) :
    Finset α × List α :=
  cycles.foldl pollCycle s

/-- Two concurrent discovery cycles interleaved so that both
`filterNewJobs` pipelines execute before either `enqueueNewJobs`
pipeline.  This interleaving is possible in the source because the
membership check and the insertion are two separate `pipeline.exec()`
round-trips. -/
def interleavedCycles {α : Type} [DecidableEq α] (seen : Finset α) (queue : List α)
    (jobs1 jobs2 : List α) : Finset α × List α :=
  let new1 := filterNewJobs seen jobs1
  let new2 := filterNewJobs seen jobs2
  let s1 := enqueueNewJobs seen queue new1
  enqueueNewJobs s1.1 s1.2 new2

/-- The concrete three-page catalog of the spec's scenario 1: pages of
sizes 100, 100, 42 with distinct ids and `nextOffset` advancing
correctly. -/
def catalog3 : Nat → Page Nat := fun offset =>
  if offset = 0 then ⟨List.range 100, some 100⟩
  else if offset = 100 then ⟨(List.range 100).map (fun i => 100 + i), some 200⟩
  else if offset = 200 then ⟨(List.range 42).map (fun i => 200 + i), some 242⟩
  else ⟨[], none⟩

/-! ## CircuitBreaker (`src/utils/templates.ts`) -/

/-- The `CircuitState` enum. -/
inductive CircuitState where
  | CLOSED
  | OPEN
  | HALF_OPEN
deriving DecidableEq, Repr

/-- Options record `CircuitBreakerOptions`, all fields required (the source merges the
defaults with the caller's overrides). -/
structure CircuitBreakerOptions where
  failureThreshold : Nat
  resetTimeout : Nat
  monitoringPeriod : Nat
  timeout : Nat
  volumeThreshold : Nat
deriving Repr

/-- The default options of the source constructor. -/
def defaultCircuitOptions : CircuitBreakerOptions :=
  { failureThreshold := 5
    resetTimeout := 60000
    monitoringPeriod := 10000
    timeout := 30000
    volumeThreshold := 10 }

/-- The mutable fields of a `CircuitBreaker` instance.  Times are
milliseconds since the epoch, as `Date` values in the source. -/
structure CircuitBreaker where
  state : CircuitState
  failureCount : Nat
  successCount : Nat
  lastFailureTime : Option Nat
  nextAttempt : Option Nat
deriving Repr

/-- The initial breaker state set by the constructor. -/
def CircuitBreaker.init : CircuitBreaker :=
  { state := .CLOSED
    failureCount := 0
    successCount := 0
    lastFailureTime := none
    nextAttempt := none }

/-- Method `getTotalRequests()`. -/
def CircuitBreaker.getTotalRequests (cb : CircuitBreaker) : Nat :=
  cb.failureCount + cb.successCount

/-- Method `shouldOpen()`. -/
def CircuitBreaker.shouldOpen (opts : CircuitBreakerOptions) (cb : CircuitBreaker) : Bool :=
  opts.failureThreshold ≤ cb.failureCount &&
    opts.volumeThreshold ≤ cb.getTotalRequests

/-- Method `shouldAttemptReset()`: `nextAttempt !== undefined && new Date() >= nextAttempt`. -/
def CircuitBreaker.shouldAttemptReset (cb : CircuitBreaker) (now : Nat) : Bool :=
  match cb.nextAttempt with
  | none => false
  | some t => t ≤ now

/-- Method `open()`: move to OPEN and schedule the next attempt after the
reset timeout. -/
def CircuitBreaker.tripOpen (opts : CircuitBreakerOptions) (cb : CircuitBreaker)
    (now : Nat) : CircuitBreaker :=
  { cb with state := .OPEN, nextAttempt := some (now + opts.resetTimeout) }

/-- Method `close()`: move to CLOSED and zero both counters. -/
def CircuitBreaker.closeCircuit (cb : CircuitBreaker) : CircuitBreaker :=
  { cb with state := .CLOSED, failureCount := 0, successCount := 0, nextAttempt := none }

/-- Method `halfOpen()`. -/
def CircuitBreaker.toHalfOpen (cb : CircuitBreaker) : CircuitBreaker :=
  { cb with state := .HALF_OPEN }

/-- Method `onSuccess()`: reset the failure count, bump the success count, and
close the circuit if this was a HALF_OPEN trial. -/
def CircuitBreaker.onSuccess (cb : CircuitBreaker) : CircuitBreaker :=
  let cb := { cb with failureCount := 0, successCount := cb.successCount + 1 }
  if cb.state = .HALF_OPEN then cb.closeCircuit else cb

/-- Method `onFailure()`: bump the failure count, record the failure time, and
open the circuit after a failed HALF_OPEN trial or once `shouldOpen`
holds. -/
def CircuitBreaker.onFailure (opts : CircuitBreakerOptions) (cb : CircuitBreaker)
    (now : Nat) : CircuitBreaker :=
  let cb := { cb with failureCount := cb.failureCount + 1, lastFailureTime := some now }
  if cb.state = .HALF_OPEN then cb.tripOpen opts now
  else if cb.shouldOpen opts then cb.tripOpen opts now
  else cb

/-- Outcome of one `execute` call: rejected without invoking the wrapped
call (the `Circuit breaker is OPEN` error, the spec's `CircuitOpenError`),
or invoked and succeeded, or invoked and failed (a timeout of the race
against `timeoutPromise` counts as a failure). -/
inductive ExecOutcome where
  | rejected
  | succeeded
  | failed
deriving DecidableEq, Repr

/-- Result of one `execute` call: the breaker afterwards, the outcome,
and whether the wrapped call was invoked at all. -/
structure ExecStep where
  cb : CircuitBreaker
  outcome : ExecOutcome
  invoked : Bool
deriving Repr

/-- The invocation half of `execute`: run the wrapped call (its outcome
abstracted to a boolean, `true` = resolved successfully within the
timeout) and apply `onSuccess` / `onFailure`. -/
def runCall (opts : CircuitBreakerOptions) (cb : CircuitBreaker) (now : Nat)
    (callSucceeds : Bool) : ExecStep :=
  if callSucceeds then ⟨cb.onSuccess, .succeeded, true⟩
  else ⟨cb.onFailure opts now, .failed, true⟩

/-- Method `CircuitBreaker.execute`: in OPEN state either transition to
HALF_OPEN (when the reset timeout has elapsed) and invoke the call, or
reject immediately without invoking it; in any other state invoke the
call. -/
def execute (opts : CircuitBreakerOptions) (cb : CircuitBreaker) (now : Nat)
    (callSucceeds : Bool) : ExecStep :=
  if cb.state = .OPEN then
    if cb.shouldAttemptReset now then
      runCall opts cb.toHalfOpen now callSucceeds
    else
      ⟨cb, .rejected, false⟩
  else
    runCall opts cb now callSucceeds

/-- A sequence of `execute` calls, each given by its wall-clock time and
the outcome its wrapped call would have. -/
def runTrace (opts : CircuitBreakerOptions) (cb : CircuitBreaker)
    (events : List (Nat × Bool)) : CircuitBreaker :=
  events.foldl (fun cb e => (execute opts cb e.1 e.2).cb) cb

/-- Predicate `noOpen thresh c outcomes` holds when, starting from a current
failure count of `c`, every (consecutive) run of failures in `outcomes`
keeps the failure count strictly below `thresh`; a success resets the
count, mirroring `onSuccess`. -/
def noOpen (thresh : Nat) : Nat → List Bool → Bool
  | _, [] => true
  | c, ev :: evs =>
    if ev then noOpen thresh 0 evs
    else decide (c + 1 < thresh) && noOpen thresh (c + 1) evs

/-! ## JobApplier: idempotency lock (`JobApplier.processJob`) -/

/-- The lock store: the Redis keys `job-sniping:lock:<id>` with their
absolute expiry times, modelled as an association list from task id to
expiry. -/
def LockStore (α : Type) : Type := List (α × Nat)

/-- Expiry time recorded for a task id, if any entry exists (expired or
not). -/
def lockEntry {α : Type} [DecidableEq α] (locks : LockStore α) (id : α) : Option Nat :=
  (List.find? (fun e => e.1 = id) locks).map (fun e => e.2)

/-- Whether the Redis key for `id` currently exists: an entry exists and
its expiry has not passed. -/
def lockHeld {α : Type} [DecidableEq α] (locks : LockStore α) (id : α) (now : Nat) : Bool :=
  match lockEntry locks id with
  | none => false
  | some expiry => now < expiry

/-- Operation `redis.set(lockKey, '1', 'EX', ttl, 'NX')`: atomically set the key
with expiry `now + ttl` if it does not currently exist, returning the
new store and whether the set succeeded. -/
def setNX {α : Type} [DecidableEq α] (locks : LockStore α) (id : α) (now ttl : Nat) :
    LockStore α × Bool :=
  if lockHeld locks id now then (locks, false)
  else ((id, now + ttl) :: List.filter (fun e => ¬ e.1 = id) locks, true)

/-- Constant `JobApplier.lockTTL = 3600` seconds (1 hour). -/
def lockTTL : Nat := 3600

/-- Status values written through `database.updateJobStatus` on the
`processJob` path. -/
inductive JobStatus where
  | applying
  | applied
  | failed
deriving DecidableEq, Repr

/-- Shared state touched by `processJob`: the lock store and the ordered
log of status transitions reported to the database. -/
structure ApplyState (α : Type) where
  locks : LockStore α
  statusLog : List (α × JobStatus)

/-- Result of one `processJob` run: the state afterwards, whether the
claim action (`applyForJob`) was invoked, whether the task was skipped
(lock contention), and whether `processJob` re-threw an error. -/
structure ProcessResult (α : Type) where
  final : ApplyState α
  claimInvoked : Bool
  skipped : Bool
  threw : Bool

/-- Method `JobApplier.processJob`: acquire the idempotency lock with
set-if-absent-with-TTL; on contention log a warning and return normally
(no claim action, no status update, no error).  Otherwise report
`applying`, run the claim action, and report `applied` on success or
`failed` (re-throwing) on failure. -/
def processJob {α : Type} [DecidableEq α] (st : ApplyState α) (now : Nat) (taskId : α)
    (claimSucceeds : Bool) : ProcessResult α :=
  let acquired := setNX st.locks taskId now lockTTL
  if acquired.2 = false then
    ⟨{ st with locks := acquired.1 }, false, true, false⟩
  else
    let log := st.statusLog ++ [(taskId, .applying)]
    if claimSucceeds then
      ⟨⟨acquired.1, log ++ [(taskId, .applied)]⟩, true, false, false⟩
    else
      ⟨⟨acquired.1, log ++ [(taskId, .failed)]⟩, true, false, true⟩

/-! ## Encryption: KMS data-key cache and envelope loading
(`src/utils/encryption.ts`) -/

/-- Constant `CACHE_TTL = 3600000` (1 hour in milliseconds). -/
def CACHE_TTL : Nat := 3600000

/-- One `dataKeyCache` entry: the decrypted key and its insertion
timestamp. -/
structure DataKeyCacheEntry (π : Type) where
  key : π
  timestamp : Nat

/-- The `dataKeyCache` map, keyed by the wrapped (ciphertext) key — the
source uses its base64 rendering, an injective encoding, so the wrapped
key itself serves as the map key. -/
def DataKeyCache (κ π : Type) : Type := List (κ × DataKeyCacheEntry π)

/-- Lookup, `Map.get`. -/
def cacheGet {κ π : Type} [DecidableEq κ] (cache : DataKeyCache κ π) (k : κ) :
    Option (DataKeyCacheEntry π) :=
  (List.find? (fun e => e.1 = k) cache).map (fun e => e.2)

/-- Update, `Map.set`: replace any entry for the same key. -/
def cacheSet {κ π : Type} [DecidableEq κ] (cache : DataKeyCache κ π) (k : κ)
    (entry : DataKeyCacheEntry π) : DataKeyCache κ π :=
  (k, entry) :: List.filter (fun e => ¬ e.1 = k) cache

/-- The periodic sweep (every 5 minutes): evict entries with
`now - timestamp > CACHE_TTL`. -/
def sweepCache {κ π : Type} (now : Nat) (cache : DataKeyCache κ π) : DataKeyCache κ π :=
  List.filter (fun e => ¬ CACHE_TTL < now - e.2.timestamp) cache

/-- Function `decryptDataKey`: return the cached plaintext when a cache entry
exists with `now - timestamp < CACHE_TTL`; otherwise call KMS (`kms`
models the external `DecryptCommand` round-trip), store the plaintext
with the current timestamp, and return it.  The boolean reports whether
the external call was made. -/
def decryptDataKey {κ π : Type} [DecidableEq κ] (cache : DataKeyCache κ π) (kms : κ → π)
    (now : Nat) (encryptedKey : κ) : π × DataKeyCache κ π × Bool :=
  match cacheGet cache encryptedKey with
  | some cached =>
    if now - cached.timestamp < CACHE_TTL then
      (cached.key, cache, false)
    else
      let plaintext := kms encryptedKey
      (plaintext, cacheSet cache encryptedKey ⟨plaintext, now⟩, true)
  | none =>
    let plaintext := kms encryptedKey
    (plaintext, cacheSet cache encryptedKey ⟨plaintext, now⟩, true)

/-- The parsed session envelope file
`{version, encryptedDataKey, encryptedData, timestamp}` with the wrapped
key of type `κ` and the opaque ciphertext of type `δ`. -/
structure SessionEnvelope (κ δ : Type) where
  version : Nat
  encryptedDataKey : κ
  encryptedData : δ
  timestamp : Nat

/-- Outcome of `loadAndDecrypt`: `null` for a missing file, the decoded
value, the fatal `Unsupported encryption version` error carrying the
offending version, or a fatal decryption failure. -/
inductive LoadOutcome (ρ : Type) where
  | nullMissing
  | value (r : ρ)
  | unsupportedVersion (v : Nat)
  | decryptFailed
deriving Repr

/-- Function `loadAndDecrypt`: a missing file (`ENOENT`) returns `null`; a
version other than 1 throws before unwrapping the data key or
decrypting; otherwise the data key is unwrapped through
`decryptDataKey` and the payload decrypted (`dec`, which may fail on a
bad auth tag).  The result carries the cache afterwards and whether key
unwrapping was attempted. -/
def loadAndDecrypt {κ π δ ρ : Type} [DecidableEq κ]
    (file : Option (SessionEnvelope κ δ)) (cache : DataKeyCache κ π) (kms : κ → π)
    (dec : δ → π → Option ρ) (now : Nat) :
    LoadOutcome ρ × DataKeyCache κ π × Bool :=
  match file with
  | none => (.nullMissing, cache, false)
  | some payload =>
    if payload.version ≠ 1 then
      (.unsupportedVersion payload.version, cache, false)
    else
      let unwrapped := decryptDataKey cache kms now payload.encryptedDataKey
      match dec payload.encryptedData unwrapped.1 with
      | some r => (.value r, unwrapped.2.1, true)
      | none => (.decryptFailed, unwrapped.2.1, true)

/-! ## Retry (`src/utils/retry.ts`) -/

/-- Classified shapes of an error thrown by the wrapped call: an
explicit `PermanentError`, an HTTP-like error with a `response.status`,
or any other (transient) error. -/
inductive CallError where
  | permanentMarker
  | http (status : Nat)
  | transient
deriving DecidableEq, Repr

/-- Whether the `retry` catch block converts this error to an
`AbortError`: a `PermanentError`, or a 4xx status other than 429. -/
def isAborting : CallError → Bool
  | .permanentMarker => true
  | .http status => 400 ≤ status && status < 500 && status ≠ 429
  | .transient => false

/-- How a `retry` invocation ends: success, an immediate abort
(`AbortError`), or retries exhausted with the last error surfaced. -/
inductive RetryResult (β : Type) where
  | ok (value : β)
  | aborted (e : CallError)
  | exhausted (e : CallError)
deriving Repr

/-- The `pRetry` loop: invoke the call (modelled as a function of the
attempt number); on success stop; on an aborting error stop immediately;
otherwise retry while attempts remain.  Returns the result and the
number of times the call was invoked. -/
def retryGo {β : Type} (fn : Nat → Except CallError β) :
    Nat → Nat → RetryResult β × Nat
  | attempt, retriesLeft =>
    match fn attempt with
    | .ok value => (.ok value, 1)
    | .error e =>
      if isAborting e then (.aborted e, 1)
      else
        match retriesLeft with
        | 0 => (.exhausted e, 1)
        | r + 1 =>
          let rest := retryGo fn (attempt + 1) r
          (rest.1, rest.2 + 1)

/-- Entry point `retry(fn, {retries})`: first attempt is attempt 1, with `retries`
further attempts allowed. -/
def retryCall {β : Type} (fn : Nat → Except CallError β) (retries : Nat) :
    RetryResult β × Nat :=
  retryGo fn 1 retries

/-! ## Theorems -/

lemma filterNewJobs_empty {α : Type} [DecidableEq α] (jobs : List α) :
    filterNewJobs (∅ : Finset α) jobs = jobs := by
  simp [filterNewJobs]

lemma mem_filterNewJobs_not_seen {α : Type} [DecidableEq α] {seen : Finset α}
    {jobs : List α} {x : α} (h : x ∈ filterNewJobs seen jobs) : x ∉ seen := by
  have := List.of_mem_filter h
  simpa using this

lemma pollSeq_invariant {α : Type} [DecidableEq α] (cycles : List (List α))
    (h : ∀ c ∈ cycles, c.Nodup) :
    ∀ s : Finset α × List α, s.2.Nodup → (∀ x ∈ s.2, x ∈ s.1) →
      (pollSeq s cycles).2.Nodup ∧ ∀ x ∈ (pollSeq s cycles).2, x ∈ (pollSeq s cycles).1 := by
  induction cycles with
  | nil => exact fun s hq hsub => ⟨hq, hsub⟩
  | cons c cs ih =>
    intro s hq hsub
    have hc : c.Nodup := h c (by simp)
    have hcs : ∀ c' ∈ cs, c'.Nodup := fun c' hc' => h c' (List.mem_cons_of_mem _ hc')
    have hstep : pollSeq s (c :: cs) = pollSeq (pollCycle s c) cs := rfl
    rw [hstep]
    apply ih hcs
    · show (s.2 ++ filterNewJobs s.1 c).Nodup
      refine List.Nodup.append hq (hc.filter _) ?_
      intro x hx hx'
      exact mem_filterNewJobs_not_seen hx' (hsub x hx)
    · intro x hx
      rcases List.mem_append.1 hx with hx | hx
      · exact Finset.mem_union_left _ (hsub x hx)
      · exact Finset.mem_union_right _ (List.mem_toFinset.2 hx)

/-- C2 (amended): provided each discovery cycle's candidate list contains
no duplicate identifiers, a sequential sequence of discovery cycles
enqueues each distinct identifier at most once (the queue is duplicate
free); and an identifier present in the seen-set is always filtered out
by `filterNewJobs`, hence never re-enqueued while present. -/
theorem dedup_idempotence {α : Type} [DecidableEq α] (cycles : List (List α))
    (h : ∀ c ∈ cycles, c.Nodup) :
    (pollSeq ((∅ : Finset α), []) cycles).2.Nodup ∧
    (∀ x : α, ((pollSeq ((∅ : Finset α), []) cycles).2).count x ≤ 1) ∧
    (∀ (seen : Finset α) (jobs : List α) (x : α), x ∈ seen →
      x ∉ filterNewJobs seen jobs) := by
  have hinv := pollSeq_invariant cycles h ((∅ : Finset α), []) (by simp)
    (by intro x hx; simp at hx)
  refine ⟨hinv.1, ?_, ?_⟩
  · exact fun x => List.nodup_iff_count_le_one.1 hinv.1 x
  · intro seen jobs x hx hmem
    exact mem_filterNewJobs_not_seen hmem hx

/-- C2 counterexample: a single discovery cycle whose candidate list
repeats identifier 0 (the catalog may return the same id on two pages of
one sweep) enqueues it twice — the membership pipeline checks every
candidate against the seen-set before any insertion happens, so the
claim's unconditional "each distinct identifier is enqueued at most
once" fails on the code. -/
theorem dedup_idempotence_counterexample :
    ((pollSeq ((∅ : Finset Nat), []) [[0, 0]]).2).count 0 = 2 := by decide

/-- C1 counterexample: two concurrent discovery cycles over the same
candidate `[0]`, interleaved so that both `filterNewJobs` pipelines run
before either `enqueueNewJobs` pipeline (possible because check and
insert are two separate `pipeline.exec()` round-trips), each treat 0 as
new and enqueue it — identifier 0 is enqueued twice, refuting the
all-or-nothing atomic-batch claim. -/
theorem concurrent_dedup_counterexample :
    ((interleavedCycles (∅ : Finset Nat) [] [0] [0]).2).count 0 = 2 := by decide

/-- C1 (amended): the seen-set membership check and the insertion are
two separate pipelined batches, so two overlapping concurrent cycles can
enqueue the same identifier twice; when the two cycles do not overlap
(the first completes before the second starts), each identifier in the
union of the two duplicate-free candidate lists is enqueued exactly
once. -/
theorem concurrent_dedup_amended {α : Type} [DecidableEq α] (jobs1 jobs2 : List α)
    (h1 : jobs1.Nodup) (h2 : jobs2.Nodup) (x : α) (hx : x ∈ jobs1 ∨ x ∈ jobs2) :
    ((pollCycle (pollCycle ((∅ : Finset α), []) jobs1) jobs2).2).count x = 1 := by
  have hq : (pollCycle (pollCycle ((∅ : Finset α), []) jobs1) jobs2).2 =
      jobs1 ++ filterNewJobs (jobs1.toFinset) jobs2 := by
    simp [pollCycle, enqueueNewJobs, filterNewJobs_empty]
  rw [hq, List.count_append]
  by_cases hx1 : x ∈ jobs1
  · rw [List.count_eq_one_of_mem h1 hx1, List.count_eq_zero_of_not_mem]
    intro hmem
    exact mem_filterNewJobs_not_seen hmem (List.mem_toFinset.2 hx1)
  · have hx2 : x ∈ jobs2 := hx.resolve_left hx1
    have hnodup : (filterNewJobs (jobs1.toFinset) jobs2).Nodup := h2.filter _
    have hmem : x ∈ filterNewJobs (jobs1.toFinset) jobs2 :=
      List.mem_filter.2 ⟨hx2, by simpa using hx1⟩
    rw [List.count_eq_zero_of_not_mem hx1, List.count_eq_one_of_mem hnodup hmem]

/-- C1 amended witness: concrete non-overlapping cycles over `[0, 1]`
and `[1, 2]`; identifier 1 is in both candidate lists and is enqueued
exactly once. -/
theorem concurrent_dedup_amended_witness :
    ((pollCycle (pollCycle ((∅ : Finset Nat), []) [0, 1]) [1, 2]).2).count 1 = 1 :=
  concurrent_dedup_amended [0, 1] [1, 2] (by decide) (by decide) 1 (Or.inl (by decide))

/-- C2 amended witness: three concrete duplicate-free cycles with
overlaps; the resulting queue is duplicate free, identifier 1 is
enqueued at most once, and identifier 5 in the seen-set is filtered
out. -/
theorem dedup_idempotence_witness :
    (pollSeq ((∅ : Finset Nat), []) [[0, 1], [1, 2], [0, 2, 3]]).2.Nodup ∧
    ((pollSeq ((∅ : Finset Nat), []) [[0, 1], [1, 2], [0, 2, 3]]).2).count 1 ≤ 1 ∧
    (5 : Nat) ∉ filterNewJobs ({5, 6} : Finset Nat) [4, 5] := by
  have h := dedup_idempotence [[0, 1], [1, 2], [0, 2, 3]]
    (by intro c hc; fin_cases hc <;> decide)
  exact ⟨h.1, h.2.1 1, h.2.2 {5, 6} [4, 5] 5 (by decide)⟩

set_option maxRecDepth 10000 in
/-- C5: discovery pagination starts at offset 0 with page size 100 and
stops exactly when a page returns fewer items than the page size or
`nextOffset` is null, concatenating all pages (first conjunct, the four
cases of the loop body); on the concrete three-page catalog with pages
of sizes 100, 100 and 42 and `nextOffset` advancing correctly, the
discoverer yields exactly the 242 candidates, all 242 are new against an
empty seen-set, all are enqueued, and the seen-set cardinality becomes
242. -/
theorem pagination_stop_law_and_scenario :
    (∀ (catalog : Nat → Page Nat) (fuel offset : Nat) (acc : List Nat),
      ((catalog offset).jobs = [] → fetchLoop catalog (fuel + 1) offset acc = acc) ∧
      ((catalog offset).jobs ≠ [] → (catalog offset).nextOffset = none →
        fetchLoop catalog (fuel + 1) offset acc = acc ++ (catalog offset).jobs) ∧
      (∀ k, (catalog offset).jobs ≠ [] → (catalog offset).nextOffset = some k →
        (catalog offset).jobs.length < 100 →
        fetchLoop catalog (fuel + 1) offset acc = acc ++ (catalog offset).jobs) ∧
      (∀ k, (catalog offset).nextOffset = some k →
        ¬ (catalog offset).jobs.length < 100 →
        fetchLoop catalog (fuel + 1) offset acc =
          fetchLoop catalog fuel k (acc ++ (catalog offset).jobs))) ∧
    fetchAllJobs catalog3 10 = List.range 242 ∧
    filterNewJobs (∅ : Finset Nat) (fetchAllJobs catalog3 10) = List.range 242 ∧
    (pollCycle ((∅ : Finset Nat), []) (fetchAllJobs catalog3 10)).2 = List.range 242 ∧
    (pollCycle ((∅ : Finset Nat), []) (fetchAllJobs catalog3 10)).1.card = 242 := by
  have hfetch : fetchAllJobs catalog3 10 = List.range 242 := by decide
  refine ⟨?_, hfetch, ?_, ?_, ?_⟩
  · intro catalog fuel offset acc
    refine ⟨?_, ?_, ?_, ?_⟩
    · intro h
      simp [fetchLoop, h]
    · intro h hnext
      simp only [fetchLoop]
      rw [if_neg (by simpa using h)]
      simp [hnext]
    · intro k h hnext hlt
      simp only [fetchLoop]
      rw [if_neg (by simpa using h)]
      simp [hnext, hlt]
    · intro k hnext hge
      have h : (catalog offset).jobs ≠ [] := by
        intro he
        exact hge (by simp [he])
      simp only [fetchLoop]
      rw [if_neg (by simpa using h)]
      simp [hnext, hge]
  · rw [hfetch, filterNewJobs_empty]
  · simp [pollCycle, enqueueNewJobs, hfetch, filterNewJobs_empty]
  · simp only [pollCycle, enqueueNewJobs, hfetch, filterNewJobs_empty, Finset.empty_union]
    rw [List.toFinset_card_of_nodup (List.nodup_range 242)]
    exact List.length_range 242

/-- C5 witness: the stop law applied to the concrete catalog — an empty
page at offset 300 stops with the accumulator unchanged; the short page
(42 < 100) at offset 200 stops after appending it; the full page at
offset 0 continues at `nextOffset = 100`. -/
theorem pagination_stop_law_witness :
    fetchLoop catalog3 1 300 [7] = [7] ∧
    fetchLoop catalog3 3 200 [] = [] ++ (catalog3 200).jobs ∧
    fetchLoop catalog3 3 0 [] = fetchLoop catalog3 2 100 ([] ++ (catalog3 0).jobs) := by
  have h := pagination_stop_law_and_scenario
  exact ⟨(h.1 catalog3 0 300 [7]).1 (by decide),
    (h.1 catalog3 2 200 []).2.2.1 242 (by decide) (by decide) (by decide),
    (h.1 catalog3 2 0 []).2.2.2 100 (by decide) (by decide)⟩

lemma runCall_success (opts : CircuitBreakerOptions) (cb : CircuitBreaker) (now : Nat) :
    runCall opts cb now true = ⟨cb.onSuccess, .succeeded, true⟩ := rfl

lemma runCall_failure (opts : CircuitBreakerOptions) (cb : CircuitBreaker) (now : Nat) :
    runCall opts cb now false = ⟨cb.onFailure opts now, .failed, true⟩ := rfl

lemma execute_of_not_open {cb : CircuitBreaker} (h : cb.state ≠ .OPEN)
    (opts : CircuitBreakerOptions) (now : Nat) (b : Bool) :
    execute opts cb now b = runCall opts cb now b := by
  unfold execute
  rw [if_neg h]

lemma execute_open_rejects {cb : CircuitBreaker} {t : Nat} (hst : cb.state = .OPEN)
    (hna : cb.nextAttempt = some t) {now : Nat} (hlt : now < t)
    (opts : CircuitBreakerOptions) (b : Bool) :
    execute opts cb now b = ⟨cb, .rejected, false⟩ := by
  unfold execute
  rw [if_pos hst, if_neg]
  simp only [CircuitBreaker.shouldAttemptReset, hna, decide_eq_true_eq]
  omega

lemma execute_open_trial {cb : CircuitBreaker} {t : Nat} (hst : cb.state = .OPEN)
    (hna : cb.nextAttempt = some t) {now : Nat} (hge : t ≤ now)
    (opts : CircuitBreakerOptions) (b : Bool) :
    execute opts cb now b = runCall opts cb.toHalfOpen now b := by
  unfold execute
  rw [if_pos hst, if_pos]
  simp [CircuitBreaker.shouldAttemptReset, hna, hge]

lemma onSuccess_eq (cb : CircuitBreaker) :
    cb.onSuccess = if cb.state = .HALF_OPEN
      then ⟨.CLOSED, 0, 0, cb.lastFailureTime, none⟩
      else ⟨cb.state, 0, cb.successCount + 1, cb.lastFailureTime, cb.nextAttempt⟩ := by
  obtain ⟨st, fc, sc, lft, na⟩ := cb
  cases st <;> rfl

lemma onFailure_eq (opts : CircuitBreakerOptions) (cb : CircuitBreaker) (now : Nat) :
    cb.onFailure opts now =
      if cb.state = .HALF_OPEN then
        ⟨.OPEN, cb.failureCount + 1, cb.successCount, some now, some (now + opts.resetTimeout)⟩
      else if opts.failureThreshold ≤ cb.failureCount + 1 ∧
          opts.volumeThreshold ≤ cb.failureCount + 1 + cb.successCount then
        ⟨.OPEN, cb.failureCount + 1, cb.successCount, some now, some (now + opts.resetTimeout)⟩
      else
        ⟨cb.state, cb.failureCount + 1, cb.successCount, some now, cb.nextAttempt⟩ := by
  obtain ⟨st, fc, sc, lft, na⟩ := cb
  cases st <;>
    simp only [CircuitBreaker.onFailure, CircuitBreaker.tripOpen, CircuitBreaker.shouldOpen,
      CircuitBreaker.getTotalRequests] <;>
    split_ifs <;> simp_all

/-- The invariant maintained by `execute`: the breaker is never at rest
in HALF_OPEN, and while CLOSED the opening condition of `shouldOpen`
has not been reached. -/
def cbInv (opts : CircuitBreakerOptions) (cb : CircuitBreaker) : Prop :=
  cb.state ≠ .HALF_OPEN ∧
  (cb.state = .CLOSED →
    cb.failureCount < opts.failureThreshold ∨
      cb.getTotalRequests < opts.volumeThreshold)

lemma cbInv_execute {opts : CircuitBreakerOptions} (hthresh : 1 ≤ opts.failureThreshold)
    {cb : CircuitBreaker} (h : cbInv opts cb) (now : Nat) (b : Bool) :
    cbInv opts (execute opts cb now b).cb := by
  obtain ⟨hho, hcl⟩ := h
  by_cases hop : cb.state = .OPEN
  · rcases hna : cb.nextAttempt with _ | t
    · have hrej : execute opts cb now b = ⟨cb, .rejected, false⟩ := by
        unfold execute
        rw [if_pos hop, if_neg]
        simp [CircuitBreaker.shouldAttemptReset, hna]
      rw [hrej]
      exact ⟨hho, hcl⟩
    · by_cases hlt : now < t
      · rw [execute_open_rejects hop hna hlt]
        exact ⟨hho, hcl⟩
      · rw [execute_open_trial hop hna (Nat.le_of_not_lt hlt)]
        cases b
        · rw [runCall_failure, onFailure_eq,
            if_pos (show cb.toHalfOpen.state = .HALF_OPEN from rfl)]
          exact ⟨by simp, by simp⟩
        · rw [runCall_success, onSuccess_eq,
            if_pos (show cb.toHalfOpen.state = .HALF_OPEN from rfl)]
          exact ⟨by simp, fun _ => Or.inl hthresh⟩
  · have hcls : cb.state = .CLOSED := by
      cases hs : cb.state
      · rfl
      · exact absurd hs hop
      · exact absurd hs hho
    rw [execute_of_not_open hop]
    cases b
    · rw [runCall_failure, onFailure_eq, if_neg (by rw [hcls]; simp)]
      split_ifs with hcond
      · exact ⟨by simp, by simp⟩
      · refine ⟨by simpa using hho, fun _ => ?_⟩
        simp only [CircuitBreaker.getTotalRequests]
        omega
    · rw [runCall_success, onSuccess_eq, if_neg (by rw [hcls]; simp)]
      exact ⟨by simpa using hho, fun _ => Or.inl hthresh⟩

lemma cbInv_runTrace {opts : CircuitBreakerOptions} (hthresh : 1 ≤ opts.failureThreshold)
    (events : List (Nat × Bool)) :
    ∀ cb : CircuitBreaker, cbInv opts cb → cbInv opts (runTrace opts cb events) := by
  induction events with
  | nil => exact fun _ h => h
  | cons e es ih =>
    intro cb h
    exact ih _ (cbInv_execute hthresh h e.1 e.2)

/-- C3: the circuit breaker transition law — (1) on any trace from the
initial CLOSED breaker, once the failure count has reached the failure
threshold and the total request count the volume threshold, the state is
OPEN; (2) while OPEN before the scheduled next attempt, `execute`
rejects immediately without invoking the wrapped call; (3) the first
`execute` at or after the scheduled next attempt runs the call as a
HALF_OPEN trial; (4) a successful trial leaves the breaker CLOSED with
both counters reset to zero, and a failed trial leaves it OPEN with a
new reset deadline. -/
theorem circuitBreaker_transition_law (opts : CircuitBreakerOptions)
    (hthresh : 1 ≤ opts.failureThreshold) :
    (∀ events : List (Nat × Bool),
      opts.failureThreshold ≤ (runTrace opts .init events).failureCount →
      opts.volumeThreshold ≤ (runTrace opts .init events).getTotalRequests →
      (runTrace opts .init events).state = .OPEN) ∧
    (∀ (cb : CircuitBreaker) (now t : Nat) (b : Bool),
      cb.state = .OPEN → cb.nextAttempt = some t → now < t →
      execute opts cb now b = ⟨cb, .rejected, false⟩) ∧
    (∀ (cb : CircuitBreaker) (now t : Nat) (b : Bool),
      cb.state = .OPEN → cb.nextAttempt = some t → t ≤ now →
      execute opts cb now b = runCall opts cb.toHalfOpen now b) ∧
    (∀ (cb : CircuitBreaker) (now t : Nat),
      cb.state = .OPEN → cb.nextAttempt = some t → t ≤ now →
      ((execute opts cb now true).cb.state = .CLOSED ∧
        (execute opts cb now true).cb.failureCount = 0 ∧
        (execute opts cb now true).cb.successCount = 0) ∧
      ((execute opts cb now false).cb.state = .OPEN ∧
        (execute opts cb now false).cb.nextAttempt = some (now + opts.resetTimeout))) := by
  refine ⟨?_, ?_, ?_, ?_⟩
  · intro events h1 h2
    have hinv := cbInv_runTrace hthresh events .init
      ⟨by decide, fun _ => Or.inl hthresh⟩
    rcases hs : (runTrace opts .init events).state with _ | _ | _
    · exfalso
      rcases hinv.2 hs with hlt | hlt <;> omega
    · rfl
    · exact absurd hs hinv.1
  · intro cb now t b hst hna hlt
    exact execute_open_rejects hst hna hlt opts b
  · intro cb now t b hst hna hge
    exact execute_open_trial hst hna hge opts b
  · intro cb now t hst hna hge
    constructor
    · rw [execute_open_trial hst hna hge, runCall_success, onSuccess_eq,
        if_pos (show cb.toHalfOpen.state = .HALF_OPEN from rfl)]
      exact ⟨rfl, rfl, rfl⟩
    · rw [execute_open_trial hst hna hge, runCall_failure, onFailure_eq,
        if_pos (show cb.toHalfOpen.state = .HALF_OPEN from rfl)]
      exact ⟨rfl, rfl⟩

/-- C3 witness: with the default options (failure threshold 5, volume
threshold 10, reset timeout 60000 ms), 5 successes followed by 5
failures trip the breaker to OPEN; an OPEN breaker with next attempt at
60000 rejects at 1000 without invoking, runs a HALF_OPEN trial at
61000, closes on a successful trial and stays OPEN on a failed one. -/
theorem circuitBreaker_transition_law_witness :
    (runTrace defaultCircuitOptions .init
        (List.replicate 5 (0, true) ++ List.replicate 5 (0, false))).state = .OPEN ∧
    execute defaultCircuitOptions ⟨.OPEN, 5, 5, some 0, some 60000⟩ 1000 true =
      ⟨⟨.OPEN, 5, 5, some 0, some 60000⟩, .rejected, false⟩ ∧
    execute defaultCircuitOptions ⟨.OPEN, 5, 5, some 0, some 60000⟩ 61000 true =
      runCall defaultCircuitOptions
        (CircuitBreaker.toHalfOpen ⟨.OPEN, 5, 5, some 0, some 60000⟩) 61000 true ∧
    (execute defaultCircuitOptions ⟨.OPEN, 5, 5, some 0, some 60000⟩ 61000 true).cb.state
      = .CLOSED ∧
    (execute defaultCircuitOptions ⟨.OPEN, 5, 5, some 0, some 60000⟩ 61000 false).cb.state
      = .OPEN := by
  have h := circuitBreaker_transition_law defaultCircuitOptions (by decide)
  exact ⟨h.1 _ (by decide) (by decide),
    h.2.1 _ 1000 60000 true rfl rfl (by decide),
    h.2.2.1 _ 61000 60000 true rfl rfl (by decide),
    ((h.2.2.2 _ 61000 60000 rfl rfl (by decide)).1).1,
    ((h.2.2.2 _ 61000 60000 rfl rfl (by decide)).2).1⟩

/-- C10: (1) every successful invocation through the breaker resets the
failure count to zero, in any state; (2) a single step can move the
breaker from CLOSED to OPEN only on a failing call whose incremented
failure count reaches the failure threshold with total requests at the
volume threshold; (3) from CLOSED, a trace whose consecutive failure
runs always stay below the failure threshold (every run broken by a
success, which resets the count) never opens the breaker; (4) the
configured `monitoringPeriod` is never consulted: `execute` is
unchanged under any value of it. -/
theorem success_resets_failures (opts : CircuitBreakerOptions) :
    (∀ (cb : CircuitBreaker) (now : Nat),
      (execute opts cb now true).invoked = true →
      (execute opts cb now true).cb.failureCount = 0) ∧
    (∀ (cb : CircuitBreaker) (now : Nat) (b : Bool),
      cb.state = .CLOSED → (execute opts cb now b).cb.state = .OPEN →
      b = false ∧ opts.failureThreshold ≤ cb.failureCount + 1 ∧
        opts.volumeThreshold ≤ cb.failureCount + 1 + cb.successCount) ∧
    (∀ (cb : CircuitBreaker) (events : List (Nat × Bool)),
      cb.state = .CLOSED →
      noOpen opts.failureThreshold cb.failureCount (events.map Prod.snd) = true →
      (runTrace opts cb events).state = .CLOSED) ∧
    (∀ (m : Nat) (cb : CircuitBreaker) (now : Nat) (b : Bool),
      execute { opts with monitoringPeriod := m } cb now b = execute opts cb now b) := by
  refine ⟨?_, ?_, ?_, ?_⟩
  · intro cb now hinv
    by_cases hop : cb.state = .OPEN
    · rcases hna : cb.nextAttempt with _ | t
      · have hrej : execute opts cb now true = ⟨cb, .rejected, false⟩ := by
          unfold execute
          rw [if_pos hop, if_neg]
          simp [CircuitBreaker.shouldAttemptReset, hna]
        rw [hrej] at hinv
        exact absurd hinv (by simp)
      · by_cases hlt : now < t
        · rw [execute_open_rejects hop hna hlt] at hinv
          exact absurd hinv (by simp)
        · rw [execute_open_trial hop hna (Nat.le_of_not_lt hlt), runCall_success, onSuccess_eq]
          split_ifs <;> rfl
    · rw [execute_of_not_open hop, runCall_success, onSuccess_eq]
      split_ifs <;> rfl
  · intro cb now b hcl hopen
    rw [execute_of_not_open (by rw [hcl]; simp)] at hopen
    cases b
    · rw [runCall_failure, onFailure_eq, if_neg (by rw [hcl]; simp)] at hopen
      refine ⟨rfl, ?_⟩
      by_cases hcond : opts.failureThreshold ≤ cb.failureCount + 1 ∧
          opts.volumeThreshold ≤ cb.failureCount + 1 + cb.successCount
      · exact hcond
      · rw [if_neg hcond] at hopen
        simp [hcl] at hopen
    · rw [runCall_success, onSuccess_eq, if_neg (by rw [hcl]; simp)] at hopen
      simp [hcl] at hopen
  · intro cb events
    induction events generalizing cb with
    | nil => exact fun hcl _ => hcl
    | cons e es ih =>
      intro hcl hno
      obtain ⟨n, b⟩ := e
      have hstep : runTrace opts cb ((n, b) :: es) =
          runTrace opts (execute opts cb n b).cb es := rfl
      rw [hstep]
      cases b
      · simp only [List.map_cons, noOpen, if_neg Bool.false_ne_true] at hno
        rw [Bool.and_eq_true, decide_eq_true_eq] at hno
        obtain ⟨hlt, hno⟩ := hno
        have hex : execute opts cb n false = ⟨cb.onFailure opts n, .failed, true⟩ := by
          rw [execute_of_not_open (by rw [hcl]; simp), runCall_failure]
        rw [hex, onFailure_eq, if_neg (by rw [hcl]; simp), if_neg (by omega)]
        exact ih _ hcl hno
      · simp only [List.map_cons, noOpen, if_pos] at hno
        have hex : execute opts cb n true = ⟨cb.onSuccess, .succeeded, true⟩ := by
          rw [execute_of_not_open (by rw [hcl]; simp), runCall_success]
        rw [hex, onSuccess_eq, if_neg (by rw [hcl]; simp)]
        exact ih _ hcl hno
  · intro m cb now b
    rfl

/-- C10 witness: a success from CLOSED with 4 accumulated failures
resets the failure count; a failing call from CLOSED with counts (4, 6)
opens and the thresholds are indeed reached; the trace
fail-fail-success-fail with threshold 5 stays CLOSED; `execute` with a
zeroed `monitoringPeriod` equals `execute` with the default. -/
theorem success_resets_failures_witness :
    (execute defaultCircuitOptions ⟨.CLOSED, 4, 0, none, none⟩ 5 true).cb.failureCount = 0 ∧
    ((false : Bool) = false ∧ 5 ≤ 4 + 1 ∧ 10 ≤ 4 + 1 + 6) ∧
    (runTrace defaultCircuitOptions ⟨.CLOSED, 0, 0, none, none⟩
        [(0, false), (1, false), (2, true), (3, false)]).state = .CLOSED ∧
    execute { defaultCircuitOptions with monitoringPeriod := 0 } .init 0 true =
      execute defaultCircuitOptions .init 0 true := by
  have h := success_resets_failures defaultCircuitOptions
  exact ⟨h.1 _ 5 (by decide),
    h.2.1 ⟨.CLOSED, 4, 6, none, none⟩ 7 false rfl (by decide),
    h.2.2.1 _ _ rfl (by decide),
    h.2.2.2 0 .init 0 true⟩

lemma processJob_held {α : Type} [DecidableEq α] (st : ApplyState α) (now : Nat) (id : α)
    (b : Bool) (h : lockHeld st.locks id now = true) :
    processJob st now id b = ⟨st, false, true, false⟩ := by
  simp [processJob, setNX, h]

lemma processJob_acquires {α : Type} [DecidableEq α] (st : ApplyState α) (now : Nat)
    (id : α) (b : Bool) (h : lockHeld st.locks id now = false) :
    (processJob st now id b).final.locks =
      (id, now + lockTTL) :: List.filter (fun e => ¬ e.1 = id) st.locks ∧
    (processJob st now id b).claimInvoked = true := by
  cases b <;> simp [processJob, setNX, h]

lemma lockEntry_after_acquire {α : Type} [DecidableEq α] (st : ApplyState α) (now : Nat)
    (id : α) (b : Bool) (h : lockHeld st.locks id now = false) :
    lockEntry (processJob st now id b).final.locks id = some (now + lockTTL) := by
  rw [(processJob_acquires st now id b h).1]
  simp [lockEntry]

/-- C4: processing a task whose idempotency lock is already held is a
pure no-op skip — no claim action, no status transition, a normal
return, the state untouched (first conjunct); and of two workers racing
on the same identifier (sequentialised by the atomic set-if-absent:
one `SET NX` lands first), exactly the first acquires the lock and
invokes the claim action while the second skips with no side effect
(second conjunct). -/
theorem idempotency_lock_skip {α : Type} [DecidableEq α] :
    (∀ (st : ApplyState α) (now : Nat) (id : α) (b : Bool),
      lockHeld st.locks id now = true →
      processJob st now id b = ⟨st, false, true, false⟩) ∧
    (∀ (st : ApplyState α) (t1 t2 : Nat) (id : α) (b1 b2 : Bool),
      lockHeld st.locks id t1 = false → t2 < t1 + lockTTL →
      (processJob st t1 id b1).claimInvoked = true ∧
      processJob (processJob st t1 id b1).final t2 id b2 =
        ⟨(processJob st t1 id b1).final, false, true, false⟩) := by
  constructor
  · exact fun st now id b h => processJob_held st now id b h
  · intro st t1 t2 id b1 b2 h hlt
    refine ⟨(processJob_acquires st t1 id b1 h).2, ?_⟩
    apply processJob_held
    rw [lockHeld, lockEntry_after_acquire st t1 id b1 h]
    simpa using hlt

/-- C4 witness: a worker hitting a held lock for task 7 skips with the
state unchanged; two workers racing on a fresh task 7 — the first
invokes the claim action, the second skips. -/
theorem idempotency_lock_skip_witness :
    (processJob (α := Nat) ⟨[(7, 500)], [(3, .applied)]⟩ 100 7 true =
      ⟨⟨[(7, 500)], [(3, .applied)]⟩, false, true, false⟩) ∧
    (processJob (α := Nat) ⟨[], []⟩ 100 7 true).claimInvoked = true ∧
    processJob (processJob (α := Nat) ⟨[], []⟩ 100 7 true).final 200 7 false =
      ⟨(processJob (α := Nat) ⟨[], []⟩ 100 7 true).final, false, true, false⟩ := by
  have h := idempotency_lock_skip (α := Nat)
  have h2 := h.2 ⟨[], []⟩ 100 200 7 true false (by decide) (by decide)
  exact ⟨h.1 ⟨[(7, 500)], [(3, .applied)]⟩ 100 7 true (by decide), h2.1, h2.2⟩

/-- C9: completing a claim task — success or failure alike — leaves the
lock entry for its identifier at `now + lockTTL` with no explicit
release; re-submitting the same identifier before the TTL elapses is
skipped without invoking the claim action; the lock is gone exactly
from `now + lockTTL` on (TTL expiry is the only release); and
`lockTTL` is 3600 seconds (1 hour). -/
theorem lock_ttl_only_release {α : Type} [DecidableEq α] (st : ApplyState α) (now : Nat)
    (id : α) (h : lockHeld st.locks id now = false) :
    (∀ b : Bool, lockEntry (processJob st now id b).final.locks id = some (now + lockTTL)) ∧
    (∀ (b b2 : Bool) (t : Nat), t < now + lockTTL →
      (processJob (processJob st now id b).final t id b2).skipped = true ∧
      (processJob (processJob st now id b).final t id b2).claimInvoked = false) ∧
    (∀ (b : Bool) (t : Nat), now + lockTTL ≤ t →
      lockHeld (processJob st now id b).final.locks id t = false) ∧
    lockTTL = 3600 := by
  refine ⟨fun b => lockEntry_after_acquire st now id b h, ?_, ?_, rfl⟩
  · intro b b2 t hlt
    have hheld : lockHeld (processJob st now id b).final.locks id t = true := by
      rw [lockHeld, lockEntry_after_acquire st now id b h]
      simpa using hlt
    rw [processJob_held _ t id b2 hheld]
    exact ⟨rfl, rfl⟩
  · intro b t hge
    rw [lockHeld, lockEntry_after_acquire st now id b h]
    simpa using hge

/-- C9 witness: after a failed claim of task 7 at time 1000, the lock
entry expires at 4600; a re-submission at 4599 is skipped; at 4600 the
lock no longer exists. -/
theorem lock_ttl_only_release_witness :
    lockEntry (processJob (α := Nat) ⟨[], []⟩ 1000 7 false).final.locks 7
      = some (1000 + lockTTL) ∧
    (processJob (processJob (α := Nat) ⟨[], []⟩ 1000 7 false).final 4599 7 true).skipped
      = true ∧
    lockHeld (processJob (α := Nat) ⟨[], []⟩ 1000 7 false).final.locks 7 4600 = false := by
  have h := lock_ttl_only_release (α := Nat) ⟨[], []⟩ 1000 7 (by decide)
  exact ⟨h.1 false, (h.2.1 false true 4599 (by decide)).1, h.2.2.1 false 4600 (by decide)⟩

/-- C6: loading a persisted session envelope from a missing file returns
null rather than an error, with no key-unwrapping attempted; and loading
an envelope whose `version` is not 1 fails with the unsupported-version
condition before any key-unwrapping or decryption is attempted (the
cache is untouched and the unwrap flag is false). -/
theorem envelope_load_version_gate {κ π δ ρ : Type} [DecidableEq κ]
    (cache : DataKeyCache κ π) (kms : κ → π) (dec : δ → π → Option ρ) (now : Nat) :
    loadAndDecrypt (ρ := ρ) none cache kms dec now = (.nullMissing, cache, false) ∧
    (∀ payload : SessionEnvelope κ δ, payload.version ≠ 1 →
      loadAndDecrypt (some payload) cache kms dec now =
        (.unsupportedVersion payload.version, cache, false)) := by
  refine ⟨rfl, ?_⟩
  intro payload hv
  simp [loadAndDecrypt, hv]

/-- C6 witness: a missing file yields null; a version-2 envelope yields
the unsupported-version failure with no unwrap attempted. -/
theorem envelope_load_version_gate_witness :
    loadAndDecrypt (κ := Nat) (δ := Nat) none ([] : DataKeyCache Nat Nat) (fun k => k)
      (fun _ _ => (some 0 : Option Nat)) 0 = (.nullMissing, [], false) ∧
    loadAndDecrypt (some ⟨2, 5, 9, 0⟩) ([] : DataKeyCache Nat Nat) (fun k => k)
      (fun _ _ => (some 0 : Option Nat)) 0 = (.unsupportedVersion 2, [], false) := by
  have h := envelope_load_version_gate ([] : DataKeyCache Nat Nat) (fun k : Nat => k)
    (fun (_ : Nat) (_ : Nat) => (some 0 : Option Nat)) 0
  exact ⟨h.1, h.2 ⟨2, 5, 9, 0⟩ (by decide)⟩

/-- C7: the data-key cache TTL law — a request whose cache entry is
younger than `CACHE_TTL` returns the cached plaintext without an
external KMS call; a request on an entry at or past its TTL performs the
external call again and stores the result with the current timestamp;
and a key unwrapped once (cache miss) is stored with that call's
timestamp, after which any request within the TTL window triggers no
second external call and returns the same plaintext; the TTL is
3600000 ms (1 hour). -/
theorem cache_ttl_law {κ π : Type} [DecidableEq κ] (kms : κ → π) :
    (∀ (cache : DataKeyCache κ π) (k : κ) (now : Nat) (e : DataKeyCacheEntry π),
      cacheGet cache k = some e → now - e.timestamp < CACHE_TTL →
      decryptDataKey cache kms now k = (e.key, cache, false)) ∧
    (∀ (cache : DataKeyCache κ π) (k : κ) (now : Nat) (e : DataKeyCacheEntry π),
      cacheGet cache k = some e → CACHE_TTL ≤ now - e.timestamp →
      decryptDataKey cache kms now k = (kms k, cacheSet cache k ⟨kms k, now⟩, true)) ∧
    (∀ (cache : DataKeyCache κ π) (k : κ) (t0 : Nat),
      cacheGet cache k = none →
      decryptDataKey cache kms t0 k = (kms k, cacheSet cache k ⟨kms k, t0⟩, true) ∧
      ∀ t1 : Nat, t1 - t0 < CACHE_TTL →
        decryptDataKey (cacheSet cache k ⟨kms k, t0⟩) kms t1 k =
          (kms k, cacheSet cache k ⟨kms k, t0⟩, false)) ∧
    CACHE_TTL = 3600000 := by
  refine ⟨?_, ?_, ?_, rfl⟩
  · intro cache k now e he hlt
    simp [decryptDataKey, he, hlt]
  · intro cache k now e he hge
    simp [decryptDataKey, he, Nat.not_lt.2 hge]
  · intro cache k t0 hnone
    have hget : cacheGet (cacheSet cache k ⟨kms k, t0⟩) k = some ⟨kms k, t0⟩ := by
      simp [cacheGet, cacheSet]
    refine ⟨by simp [decryptDataKey, hnone], ?_⟩
    intro t1 hlt
    simp [decryptDataKey, hget, hlt]

/-- C7 witness: entry inserted at 100 — a request at 3600099 (one
millisecond before expiry) is a hit with no KMS call; at 3600100 it is
expired, KMS is called and the entry re-stamped; a fresh key unwrapped
at 200 is stored with timestamp 200 and a request at 3600199 is still a
hit. -/
theorem cache_ttl_law_witness :
    decryptDataKey [((5 : Nat), ⟨(55 : Nat), 100⟩)] (fun k => k + 50) 3600099 5 =
      (55, [(5, ⟨55, 100⟩)], false) ∧
    decryptDataKey [((5 : Nat), ⟨(55 : Nat), 100⟩)] (fun k => k + 50) 3600100 5 =
      (55, [(5, ⟨55, 3600100⟩)], true) ∧
    decryptDataKey ([] : DataKeyCache Nat Nat) (fun k => k + 50) 200 5 =
      (55, [(5, ⟨55, 200⟩)], true) ∧
    decryptDataKey [((5 : Nat), ⟨(55 : Nat), 200⟩)] (fun k => k + 50) 3600199 5 =
      (55, [(5, ⟨55, 200⟩)], false) := by
  have h := cache_ttl_law (κ := Nat) (π := Nat) (fun k => k + 50)
  have h3 := h.2.2.1 [] 5 200 rfl
  exact ⟨h.1 _ 5 3600099 ⟨55, 100⟩ rfl (by decide),
    h.2.1 _ 5 3600100 ⟨55, 100⟩ rfl (by decide),
    h3.1,
    h3.2 3600199 (by decide)⟩

lemma retryGo_transient {β : Type} (fn : Nat → Except CallError β) :
    ∀ (rl attempt : Nat),
      (∀ i, attempt ≤ i → i ≤ attempt + rl → ∃ e, fn i = .error e ∧ isAborting e = false) →
      ∃ e, retryGo fn attempt rl = (.exhausted e, rl + 1) ∧ fn (attempt + rl) = .error e := by
  intro rl
  induction rl with
  | zero =>
    intro attempt h
    obtain ⟨e, he, hab⟩ := h attempt le_rfl (by omega)
    exact ⟨e, by simp [retryGo, he, hab], by simpa using he⟩
  | succ r ih =>
    intro attempt h
    obtain ⟨e, he, hab⟩ := h attempt le_rfl (by omega)
    obtain ⟨e', he', hfn⟩ := ih (attempt + 1) (fun i h1 h2 => h i (by omega) (by omega))
    refine ⟨e', by simp [retryGo, he, hab, he'], ?_⟩
    rw [show attempt + (r + 1) = attempt + 1 + r by omega]
    exact hfn

/-- C8: the retry wrapper's permanent/transient distinction — a call
failing with an aborting error (explicit `PermanentError` marker, or an
HTTP-like 4xx status other than 429, and exactly those, second conjunct)
stops immediately after that single invocation and surfaces the abort;
a call that keeps failing transiently is re-invoked until the configured
retry count is consumed (`retries + 1` invocations in total) and the
failure is then surfaced. -/
theorem retry_permanent_aborts {β : Type} :
    (∀ (fn : Nat → Except CallError β) (attempt retriesLeft : Nat) (e : CallError),
      fn attempt = .error e → isAborting e = true →
      retryGo fn attempt retriesLeft = (.aborted e, 1)) ∧
    (∀ e : CallError, isAborting e = true ↔
      (e = .permanentMarker ∨ ∃ s, e = .http s ∧ 400 ≤ s ∧ s < 500 ∧ s ≠ 429)) ∧
    (∀ (fn : Nat → Except CallError β) (retries : Nat),
      (∀ i, 1 ≤ i → i ≤ 1 + retries → ∃ e, fn i = .error e ∧ isAborting e = false) →
      ∃ e, retryCall fn retries = (.exhausted e, retries + 1)) := by
  refine ⟨?_, ?_, ?_⟩
  · intro fn attempt rl e hf hab
    cases rl <;> simp [retryGo, hf, hab]
  · intro e
    cases e with
    | permanentMarker => simp [isAborting]
    | http s =>
      simp only [isAborting, Bool.and_eq_true, decide_eq_true_eq]
      constructor
      · rintro ⟨⟨h1, h2⟩, h3⟩
        exact Or.inr ⟨s, rfl, h1, h2, h3⟩
      · rintro (hc | ⟨s', hs, h1, h2, h3⟩)
        · exact absurd hc (by simp)
        · cases hs
          exact ⟨⟨h1, h2⟩, h3⟩
    | transient => simp [isAborting]
  · intro fn retries h
    obtain ⟨e, he, _⟩ := retryGo_transient fn retries 1 h
    exact ⟨e, he⟩

/-- C8 witness: a 404 aborts on the first attempt with 3 retries still
allowed; 404 satisfies the aborting characterisation; a constantly
transient call with 3 retries is invoked 4 times and surfaces
exhaustion. -/
theorem retry_permanent_aborts_witness :
    retryGo (fun _ => (.error (.http 404) : Except CallError Nat)) 1 3 =
      (.aborted (.http 404), 1) ∧
    (isAborting (.http 404) = true ↔
      (CallError.http 404 = .permanentMarker ∨
        ∃ s, CallError.http 404 = .http s ∧ 400 ≤ s ∧ s < 500 ∧ s ≠ 429)) ∧
    ∃ e, retryCall (fun _ => (.error .transient : Except CallError Nat)) 3 =
      (.exhausted e, 3 + 1) := by
  have h := retry_permanent_aborts (β := Nat)
  exact ⟨h.1 _ 1 3 (.http 404) rfl (by decide),
    h.2.1 (.http 404),
    h.2.2 _ 3 (fun i _ _ => ⟨.transient, rfl, rfl⟩)⟩
